import Mathlib

/-!
Shallow embedding of the consistency-model training script (src/main.py)
and verification of its specification.

Machine floating-point arithmetic from the script (`math.sqrt`, `math.exp`,
`math.log`, tensor arithmetic) is idealized over the real numbers `ℝ`,
which is the mathematical meaning the specification ascribes to it.
Tensors of model parameters are modelled as lists of reals (one entry per
scalar parameter); the batch dimension of an image tensor is modelled by
the natural number `x.shape[0]`.
-/

namespace ConsistencyModels

/-- Configuration record built at line 22 of `src/main.py`
(`SimpleNamespace(img_size=32, batch_size=64, ...)`).  The learning rate is
a rational scalar; `device` is a string chosen from the environment and is
kept abstract. -/
structure Config where
  img_size : ℕ
  batch_size : ℕ
  num_workers : ℕ
  dataset : String
  lr : ℚ
  n_epochs : ℕ
  sample_every_n_epoch : ℕ
  wandb : Bool

/-- Default values of the configuration (lines 22-32 of `src/main.py`). -/
def defaultConfig : Config :=
  { img_size := 32
    batch_size := 64
    num_workers := 4
    dataset := "mnist"
    lr := 1/1000
    n_epochs := 10
    sample_every_n_epoch := 1
    wandb := true }

/-- Python `range(a, b)`: the ascending list `[a, a+1, ..., b-1]`, empty
when `b ≤ a`. -/
def pythonRange (a b : ℕ) : List ℕ := List.range' a (b - a)

/-- The list of epoch indices executed by the training loop
(`for epoch in range(1, config.n_epochs)`, line 58 of `src/main.py`). -/
def epochsRun (n_epochs : ℕ) : List ℕ := pythonRange 1 n_epochs

/-- Membership in `pythonRange`. -/
theorem mem_pythonRange {a b m : ℕ} : m ∈ pythonRange a b ↔ a ≤ m ∧ m < b := by
  unfold pythonRange
  rw [List.mem_range']
  constructor
  · rintro ⟨i, hi, rfl⟩
    omega
  · intro h
    exact ⟨m - a, by omega, by omega⟩

/-- Per-epoch step count computed at line 59 of `src/main.py`:
`N = math.ceil(math.sqrt((epoch * (150**2 - 4) / config.n_epochs) + 4) - 1) + 1`. -/
noncomputable def stepCountN (epoch n_epochs : ℕ) : ℤ :=
  ⌈Real.sqrt ((epoch * (150 ^ 2 - 4) : ℝ) / n_epochs + 4) - 1⌉ + 1

/-- The step-count formula exactly as the specification writes it
(`N = ceil( sqrt( epoch·(150²−4)/total_epochs + 4 ) − 1 ) + 1`). -/
noncomputable def stepCountSpec (epoch total_epochs : ℕ) : ℤ :=
  ⌈Real.sqrt ((epoch : ℝ) * (150 ^ 2 - 4) / total_epochs + 4) - 1⌉ + 1

/-- Modelled from the spec: the function `kerras_boundaries` is imported
from the `consistency_models` package, whose source is not part of this
repository snapshot; section 4.2 of the specification gives its closed
form, `t_i = (σ_min^(1/ρ) + i/(N−1)·(σ_max^(1/ρ) − σ_min^(1/ρ)))^ρ` for
`i` in `0..N−1`.  The argument order matches the call site at line 60 of
`src/main.py`: `kerras_boundaries(7.0, 0.002, N, 80.0)`. -/
noncomputable def kerras_boundaries (ρ σmin : ℝ) (N : ℕ) (σmax : ℝ) : List ℝ :=
  (List.range N).map (fun i : ℕ =>
    (σmin ^ (1 / ρ) + (i : ℝ) / ((N : ℝ) - 1) * (σmax ^ (1 / ρ) - σmin ^ (1 / ρ))) ^ ρ)

/-- EMA decay factor computed at line 41 of `src/main.py`:
`mu = math.exp(2 * math.log(0.95) / N)`. -/
noncomputable def emaMu (N : ℕ) : ℝ := Real.exp (2 * Real.log 0.95 / N)

/-- One call of `EMA.update(N)` (lines 39-44 of `src/main.py`): every
shadow parameter `ema_p` paired with its live parameter `p` becomes
`mu * ema_p + (1 - mu) * p` (`ema_p.mul_(mu).add_(p, alpha=1 - mu)`). -/
noncomputable def emaUpdate (live shadow : List ℝ) (N : ℕ) : List ℝ :=
  List.zipWith (fun p ema_p => emaMu N * ema_p + (1 - emaMu N) * p) live shadow

/-- Set of indices the per-sample draw `t = torch.randint(0, N - 1, ...)`
(line 70 of `src/main.py`) can produce: the upper bound of `torch.randint`
is exclusive, so the draw is uniform on `{0, ..., N-2}`. -/
def drawIndexRange (N : ℕ) : Finset ℕ := Finset.range (N - 1)

/-- Live and shadow (EMA) parameter vectors of the run. -/
structure TrainState where
  live : List ℝ
  shadow : List ℝ

/-- Construction of the EMA tracker (line 37 of `src/main.py`): the shadow
model is a deep copy of the live model's current parameters, placed in
eval mode with gradient tracking disabled. -/
def emaInit (params : List ℝ) : TrainState := { live := params, shadow := params }

/-- The backpropagation/optimizer/scheduler phase of one batch (lines
66-83 of `src/main.py`).  The optimizer was registered with only
`model.parameters()` (line 52), and `loss.backward()` writes gradients
only of parameters that require grad, so this phase is an arbitrary update
`optimStep` of the live parameters; the shadow parameters are not an
input of the optimizer. -/
def gradientPhase (optimStep : List ℝ → List ℝ) (s : TrainState) : TrainState :=
  { live := optimStep s.live, shadow := s.shadow }

/-- One full batch step (lines 66-84 of `src/main.py`): the gradient
phase followed by `ema.update(N)` (line 84). -/
noncomputable def batchStep (optimStep : List ℝ → List ℝ) (N : ℕ) (s : TrainState) :
    TrainState :=
  { live := (gradientPhase optimStep s).live
    shadow := emaUpdate (gradientPhase optimStep s).live (gradientPhase optimStep s).shadow N }

/-- The epoch-end sampling/saving phase (lines 92-120 of `src/main.py`):
it runs under `torch.inference_mode()` and only reads parameters, so it is
the identity on the parameter state. -/
def epochEndPhase (s : TrainState) : TrainState := s

/-- Semantics of `torch.Tensor.clamp(lo, hi)` on one scalar entry. -/
noncomputable def clamp (x lo hi : ℝ) : ℝ := min (max x lo) hi

/-- Pixel post-processing applied to raw sampler outputs before saving or
logging a grid: `xh = (xh * 0.5 + 0.5).clamp(0, 1)` (lines 99 and 109 of
`src/main.py`), applied entrywise. -/
noncomputable def postprocessPixel (v : ℝ) : ℝ := clamp (v * 0.5 + 0.5) 0 1

/-- Semantics of Python's built-in `bool` constructor applied to a string:
`bool(s)` is `False` exactly when `s` is empty, and `True` for every
non-empty string, whatever its text. -/
def pyBoolOfString (s : String) : Bool := s ≠ ""

/-- Converter `parse_args` installs for the flag `--wandb` (line 126 of
`src/main.py`): `type=type(v)` with `v = config.wandb = True`, hence
Python's `bool` applied to the raw argument text. -/
def parseWandbArg (s : String) : Bool := pyBoolOfString s

/-- Metric key of the 5-step gallery log call (line 103 of `src/main.py`). -/
def fiveStepGalleryKey : String := "sampled_images_5"

/-- Metric key of the 2-step gallery log call (line 113 of `src/main.py`). -/
def twoStepGalleryKey : String := "sampled_images_5"

/-- Keys of the two image-gallery log calls made at one epoch end. -/
def epochEndGalleryKeys : List String := [fiveStepGalleryKey, twoStepGalleryKey]

/-- Value of the Python loop variable `x` after the batch loop
(`for x, _ in pbar`, line 65 of `src/main.py`): each iteration rebinds
`x`, so after the loop it holds the last batch (or nothing when the epoch
had no batches).  A batch is modelled by its batch dimension
`x.shape[0]`. -/
def loopVarAfter (batches : List ℕ) : Option ℕ :=
  batches.foldl (fun _ b => some b) none

/-- Number of images handed to `model.sample` at epoch end (lines 95-96
and 104-106 of `src/main.py`): the initial noise is
`torch.randn_like(x) * 80.0`, whose shape is that of the leftover loop
variable `x`. -/
def samplerInputCount (batches : List ℕ) : Option ℕ := loopVarAfter batches

/-- C1: For every configured total epoch count `E = n_epochs`, the
training loop executes exactly the epochs `1` through `E-1` inclusive, and
the final configured epoch `E` itself is never executed (the loop
iterates over the half-open range `range(1, n_epochs)`). -/
theorem epochsRun_half_open (E e : ℕ) :
    (e ∈ epochsRun E ↔ 1 ≤ e ∧ e ≤ E - 1) ∧ E ∉ epochsRun E := by
  constructor
  · rw [show epochsRun E = pythonRange 1 E from rfl, mem_pythonRange]
    omega
  · intro hmem
    have := mem_pythonRange.mp hmem
    omega

/-- Witness for C1 at `E = 10`, `e = 3`. -/
theorem epochsRun_half_open_witness :
    ((3 ∈ epochsRun 10 ↔ 1 ≤ 3 ∧ 3 ≤ 10 - 1) ∧ 10 ∉ epochsRun 10) :=
  epochsRun_half_open 10 3

/-- The argument of the square root in the step-count formula is at least
`4` for every epoch index and positive total epoch count. -/
lemma stepCount_arg_ge_four (e E : ℕ) :
    (4 : ℝ) ≤ (e * (150 ^ 2 - 4) : ℝ) / E + 4 := by
  have h : (0 : ℝ) ≤ (e * (150 ^ 2 - 4) : ℝ) / E := by positivity
  linarith

/-- C2: For every total epoch count `E ≥ 2` and epoch indices `e ≤ e'` in
`[1, E)`, the per-epoch step count of line 59 equals the specification's
formula `ceil(sqrt(e·(150²−4)/E + 4) − 1) + 1`, is an integer `≥ 2`, and
is non-decreasing in the epoch index. -/
theorem stepCountN_formula_ge_two_mono (E e e' : ℕ) (hE : 2 ≤ E) (he : 1 ≤ e)
    (hee : e ≤ e') (he' : e' < E) :
    stepCountN e E = stepCountSpec e E ∧ 2 ≤ stepCountN e E ∧
      stepCountN e E ≤ stepCountN e' E := by
  refine ⟨rfl, ?_, ?_⟩
  · unfold stepCountN
    have h2 : (2 : ℝ) ≤ Real.sqrt ((e * (150 ^ 2 - 4) : ℝ) / E + 4) := by
      rw [Real.le_sqrt (by norm_num) (by linarith [stepCount_arg_ge_four e E])]
      linarith [stepCount_arg_ge_four e E]
    have hceil : (1 : ℤ) ≤ ⌈Real.sqrt ((e * (150 ^ 2 - 4) : ℝ) / E + 4) - 1⌉ := by
      have hpos : (0 : ℝ) < Real.sqrt ((e * (150 ^ 2 - 4) : ℝ) / E + 4) - 1 := by
        linarith
      exact Int.ceil_pos.mpr hpos
    omega
  · unfold stepCountN
    have harg : (e * (150 ^ 2 - 4) : ℝ) / E + 4 ≤ (e' * (150 ^ 2 - 4) : ℝ) / E + 4 := by
      have hcast : (e : ℝ) ≤ (e' : ℝ) := Nat.cast_le.mpr hee
      gcongr
    have hsqrt := Real.sqrt_le_sqrt harg
    have := Int.ceil_le_ceil (sub_le_sub_right hsqrt 1)
    omega

/-- Witness for C2 at `E = 10`, `e = 1`, `e' = 5`. -/
theorem stepCountN_formula_ge_two_mono_witness :
    stepCountN 1 10 = stepCountSpec 1 10 ∧ 2 ≤ stepCountN 1 10 ∧
      stepCountN 1 10 ≤ stepCountN 5 10 :=
  stepCountN_formula_ge_two_mono 10 1 5 (by decide) (by decide) (by decide) (by decide)

/-- The boundary list has one element per index in `0..N-1`. -/
lemma kerras_length (ρ σmin σmax : ℝ) (N : ℕ) :
    (kerras_boundaries ρ σmin N σmax).length = N := by
  simp [kerras_boundaries]

/-- Strict monotonicity of the boundary list for positive exponent,
positive lower level and `σmin < σmax`. -/
lemma kerras_pairwise_lt (ρ σmin σmax : ℝ) (N : ℕ) (hρ : 0 < ρ) (hmin : 0 < σmin)
    (hlt : σmin < σmax) (hN : 2 ≤ N) :
    List.Pairwise (· < ·) (kerras_boundaries ρ σmin N σmax) := by
  unfold kerras_boundaries
  refine (List.pairwise_lt_range N).map _ ?_
  intro i j hij
  dsimp only
  have hd : (0 : ℝ) < (N : ℝ) - 1 := by
    have : (2 : ℝ) ≤ (N : ℝ) := by exact_mod_cast hN
    linarith
  have hA : (0 : ℝ) < σmin ^ (1 / ρ) := Real.rpow_pos_of_pos hmin _
  have hAB : σmin ^ (1 / ρ) < σmax ^ (1 / ρ) :=
    Real.rpow_lt_rpow (le_of_lt hmin) hlt (by positivity)
  have hij' : (i : ℝ) < (j : ℝ) := by exact_mod_cast hij
  have hbase :
      σmin ^ (1 / ρ) + (i : ℝ) / ((N : ℝ) - 1) * (σmax ^ (1 / ρ) - σmin ^ (1 / ρ)) <
        σmin ^ (1 / ρ) + (j : ℝ) / ((N : ℝ) - 1) * (σmax ^ (1 / ρ) - σmin ^ (1 / ρ)) := by
    have hdiv : (i : ℝ) / ((N : ℝ) - 1) < (j : ℝ) / ((N : ℝ) - 1) := by gcongr
    have := mul_lt_mul_of_pos_right hdiv (by linarith : (0 : ℝ) < σmax ^ (1 / ρ) - σmin ^ (1 / ρ))
    linarith
  have hpos :
      (0 : ℝ) ≤ σmin ^ (1 / ρ) + (i : ℝ) / ((N : ℝ) - 1) * (σmax ^ (1 / ρ) - σmin ^ (1 / ρ)) := by
    have h1 : (0 : ℝ) ≤ (i : ℝ) / ((N : ℝ) - 1) := by positivity
    nlinarith
  exact Real.rpow_lt_rpow hpos hbase hρ

/-- The first boundary recovers `σmin`. -/
lemma kerras_head (ρ σmin σmax : ℝ) (N : ℕ) (hρ : 0 < ρ) (hmin : 0 ≤ σmin) (hN : 1 ≤ N) :
    (kerras_boundaries ρ σmin N σmax).head? = some σmin := by
  obtain ⟨k, rfl⟩ : ∃ k, N = k + 1 := ⟨N - 1, by omega⟩
  unfold kerras_boundaries
  rw [List.range_succ_eq_map]
  simp only [List.map_cons, List.head?_cons, Nat.cast_zero, zero_div, zero_mul, add_zero]
  rw [← Real.rpow_mul hmin, one_div_mul_cancel (ne_of_gt hρ), Real.rpow_one]

/-- The last boundary recovers `σmax`. -/
lemma kerras_last (ρ σmin σmax : ℝ) (N : ℕ) (hρ : 0 < ρ) (hmax : 0 ≤ σmax) (hN : 2 ≤ N) :
    (kerras_boundaries ρ σmin N σmax).getLast? = some σmax := by
  have hlast : (List.range N).getLast? = some (N - 1) := by
    obtain ⟨k, rfl⟩ : ∃ k, N = k + 1 := ⟨N - 1, by omega⟩
    simp [List.range_succ]
  unfold kerras_boundaries
  rw [List.getLast?_map, hlast]
  simp only [Option.map_some']
  congr 1
  have hcast : ((N - 1 : ℕ) : ℝ) = (N : ℝ) - 1 := by
    have : 1 ≤ N := by omega
    push_cast [this]
    ring
  have hd : ((N : ℝ) - 1) ≠ 0 := by
    have : (2 : ℝ) ≤ (N : ℝ) := by exact_mod_cast hN
    linarith
  rw [hcast, div_self hd, one_mul]
  have : σmin ^ (1 / ρ) + (σmax ^ (1 / ρ) - σmin ^ (1 / ρ)) = σmax ^ (1 / ρ) := by ring
  rw [this, ← Real.rpow_mul hmax, one_div_mul_cancel (ne_of_gt hρ), Real.rpow_one]

/-- C3: For every `N ≥ 2`, the boundary sequence built at line 60 of
`src/main.py` (with `ρ = 7.0`, `σ_min = 0.002`, `σ_max = 80.0`) has
exactly `N` elements, is strictly increasing, and its first and last
elements are exactly `0.002` and `80.0` (exact over the reals, hence
within floating tolerance). -/
theorem kerras_boundaries_props (N : ℕ) (hN : 2 ≤ N) :
    (kerras_boundaries 7.0 0.002 N 80.0).length = N ∧
      List.Pairwise (· < ·) (kerras_boundaries 7.0 0.002 N 80.0) ∧
      (kerras_boundaries 7.0 0.002 N 80.0).head? = some 0.002 ∧
      (kerras_boundaries 7.0 0.002 N 80.0).getLast? = some 80.0 :=
  ⟨kerras_length 7.0 0.002 80.0 N,
   kerras_pairwise_lt 7.0 0.002 80.0 N (by norm_num) (by norm_num) (by norm_num) hN,
   kerras_head 7.0 0.002 80.0 N (by norm_num) (by norm_num) (by omega),
   kerras_last 7.0 0.002 80.0 N (by norm_num) (by norm_num) hN⟩

/-- Witness for C3 at `N = 2`. -/
theorem kerras_boundaries_props_witness :
    (kerras_boundaries 7.0 0.002 2 80.0).length = 2 ∧
      List.Pairwise (· < ·) (kerras_boundaries 7.0 0.002 2 80.0) ∧
      (kerras_boundaries 7.0 0.002 2 80.0).head? = some 0.002 ∧
      (kerras_boundaries 7.0 0.002 2 80.0).getLast? = some 80.0 :=
  kerras_boundaries_props 2 (by decide)

/-- With `N = 1` the EMA decay factor is exactly `0.95² = 0.9025`. -/
lemma emaMu_one : emaMu 1 = 0.9025 := by
  unfold emaMu
  rw [Nat.cast_one, div_one]
  have hlog : Real.log ((0.95 : ℝ) ^ (2 : ℕ)) = 2 * Real.log 0.95 := by
    rw [Real.log_pow]
    norm_num
  rw [← hlog, Real.exp_log (by norm_num)]
  norm_num

/-- C4: `EMA.update(N)` uses the decay factor `μ = exp(2·ln(0.95)/N)` and
maps every shadow parameter paired with its live parameter to
`μ·shadow + (1−μ)·live`; for `N = 1` the factor is `0.95² = 0.9025`, so a
shadow value `0` paired with a live value `1` becomes `0.0975`. -/
theorem emaUpdate_decay_formula :
    (∀ (live shadow : List ℝ) (N i : ℕ) (p s : ℝ), 0 < N →
        live[i]? = some p → shadow[i]? = some s →
        emaMu N = Real.exp (2 * Real.log 0.95 / N) ∧
          (emaUpdate live shadow N)[i]? = some (emaMu N * s + (1 - emaMu N) * p)) ∧
      emaMu 1 = 0.9025 ∧ emaUpdate [1] [0] 1 = [0.0975] := by
  refine ⟨?_, emaMu_one, ?_⟩
  · intro live shadow N i p s _ hp hs
    refine ⟨rfl, ?_⟩
    unfold emaUpdate
    exact (List.getElem?_zipWith_eq_some).mpr ⟨p, s, hp, hs, rfl⟩
  · unfold emaUpdate
    simp only [List.zipWith_cons_cons, List.zipWith_nil_right]
    rw [emaMu_one]
    norm_num

/-- Witness for C4 at `live = [2]`, `shadow = [3]`, `N = 1`, `i = 0`. -/
theorem emaUpdate_decay_formula_witness :
    emaMu 1 = Real.exp (2 * Real.log 0.95 / (1 : ℕ)) ∧
      (emaUpdate [2] [3] 1)[0]? = some (emaMu 1 * 3 + (1 - emaMu 1) * 2) :=
  emaUpdate_decay_formula.1 [2] [3] 1 0 2 3 (by decide) rfl rfl

/-- C5: every index the per-sample draw of line 70 can produce lies in
`{0, ..., N-2}`, and both adjacent lookups `boundaries[t]` and
`boundaries[t+1]` (lines 71-72) are in bounds for the epoch's boundary
list of `N` elements. -/
theorem drawIndex_lookups_in_bounds (N t : ℕ) (hN : 2 ≤ N) (ht : t ∈ drawIndexRange N) :
    t ≤ N - 2 ∧ t + 1 ≤ N - 1 ∧
      t < (kerras_boundaries 7.0 0.002 N 80.0).length ∧
      t + 1 < (kerras_boundaries 7.0 0.002 N 80.0).length := by
  have h := Finset.mem_range.mp ht
  rw [kerras_length]
  omega

/-- Witness for C5 at `N = 2`, `t = 0`. -/
theorem drawIndex_lookups_in_bounds_witness :
    0 ≤ 2 - 2 ∧ 0 + 1 ≤ 2 - 1 ∧
      0 < (kerras_boundaries 7.0 0.002 2 80.0).length ∧
      0 + 1 < (kerras_boundaries 7.0 0.002 2 80.0).length :=
  drawIndex_lookups_in_bounds 2 0 (by decide) (by decide)

/-- C6: the shadow parameters are created once as a copy of the live
parameters; the gradient/optimizer phase never touches them (iterated any
number of times), the epoch-end phase touches nothing, and the only write
to the shadow parameters in a batch step is the `ema.update(N)` call. -/
theorem shadow_only_changed_by_update :
    (∀ params : List ℝ, (emaInit params).shadow = params ∧ (emaInit params).live = params) ∧
      (∀ (fs : List (List ℝ → List ℝ)) (s : TrainState),
          (fs.foldl (fun st f => gradientPhase f st) s).shadow = s.shadow) ∧
      (∀ (f : List ℝ → List ℝ) (N : ℕ) (s : TrainState),
          batchStep f N s =
            { live := (gradientPhase f s).live
              shadow := emaUpdate (gradientPhase f s).live s.shadow N }) ∧
      (∀ s : TrainState, epochEndPhase s = s) := by
  refine ⟨fun p => ⟨rfl, rfl⟩, ?_, fun f N s => rfl, fun s => rfl⟩
  intro fs s
  induction fs generalizing s with
  | nil => rfl
  | cons f t ih =>
    rw [List.foldl_cons]
    exact ih (gradientPhase f s)

/-- C7: the persisted pixel value is `clamp(0.5·v + 0.5, 0, 1)` for raw
sampler output `v`, hence always lies in `[0, 1]`. -/
theorem postprocessPixel_clipped (v : ℝ) :
    postprocessPixel v = clamp (0.5 * v + 0.5) 0 1 ∧
      0 ≤ postprocessPixel v ∧ postprocessPixel v ≤ 1 := by
  unfold postprocessPixel clamp
  refine ⟨by rw [mul_comm v 0.5], ?_, ?_⟩
  · exact le_min (le_max_right _ _) zero_le_one
  · exact min_le_right _ _

/-- C8: the CLI converter chosen for `--wandb` is Python's `bool`
constructor, so the argument text `"False"` parses to `True`, and the
empty string is the only argument value that parses to `False`. -/
theorem parseWandbArg_nonempty_is_true :
    parseWandbArg "False" = true ∧ ∀ s : String, (parseWandbArg s = false ↔ s = "") := by
  refine ⟨by decide, ?_⟩
  intro s
  unfold parseWandbArg pyBoolOfString
  simp

/-- C9: the 2-step gallery is logged under the same metric key
`"sampled_images_5"` as the 5-step gallery, so the two per-epoch
galleries are never distinguishable by key. -/
theorem gallery_keys_collide :
    twoStepGalleryKey = fiveStepGalleryKey ∧
      ∀ k ∈ epochEndGalleryKeys, k = "sampled_images_5" := by
  refine ⟨rfl, ?_⟩
  intro k hk
  rcases List.mem_pair.mp hk with h | h <;> exact h

/-- Witness for C9 at the 2-step gallery's key. -/
theorem gallery_keys_collide_witness : twoStepGalleryKey = "sampled_images_5" :=
  gallery_keys_collide.2 twoStepGalleryKey (by decide)

/-- The rebinding fold of the batch loop ends at the last batch. -/
lemma foldl_rebind_eq_getLast? (l : List ℕ) (h : l ≠ []) :
    ∀ init : Option ℕ, l.foldl (fun _ b => some b) init = l.getLast? := by
  induction l with
  | nil => exact absurd rfl h
  | cons a t ih =>
    intro init
    cases t with
    | nil => simp
    | cons b t' =>
      rw [List.foldl_cons, ih (by simp) (some a), List.getLast?_cons_cons]

/-- C10: the initial noise handed to the sampler at epoch end has the
shape of the final training batch of the epoch (the leftover loop
variable), so the number of generated sample images equals the size of
the epoch's last batch — which can be smaller than the configured batch
size (e.g. last batch of size 36 under the default batch size 64). -/
theorem samplerInput_is_last_batch :
    (∀ (batches : List ℕ) (h : batches ≠ []),
        samplerInputCount batches = some (batches.getLast h)) ∧
      samplerInputCount [64, 64, 36] = some 36 ∧ 36 < defaultConfig.batch_size := by
  refine ⟨?_, rfl, by decide⟩
  intro batches h
  unfold samplerInputCount loopVarAfter
  rw [foldl_rebind_eq_getLast? batches h none, List.getLast?_eq_getLast batches h]

/-- Witness for C10 at the batch list `[64, 36]`. -/
theorem samplerInput_is_last_batch_witness :
    samplerInputCount [64, 36] = some ([64, 36].getLast (List.cons_ne_nil 64 [36])) :=
  samplerInput_is_last_batch.1 [64, 36] (List.cons_ne_nil 64 [36])

end ConsistencyModels
